import Mathlib

/-!
Shallow embedding of the BitMEX feed handler (`cryptofeed/exchange/bitmex.py`):
the L2 order-book engine (`Bitmex._book`, `Bitmex._reset`) and the trade
normalizer (`Bitmex._trade`).  Prices and sizes (Python `Decimal`) are
modelled as rationals; the mutable per-symbol dictionaries become total
functions into `Option`; a `KeyError` / `IndexError` raised mid-message is
modelled by an error result that carries the state at the moment of the
raise, since the Python loop mutates state in place before raising.
-/

namespace Cryptofeed

/-- Book side: the `BID` / `ASK` keys of `l2_book[pair]`. -/
inductive Side where
  | bid
  | ask
deriving DecidableEq, Repr

/-- Models `side = BID if data['side'] == 'Buy' else ASK` (bitmex.py line 109 etc.). -/
def sideOf (s : String) : Side := if s = "Buy" then Side.bid else Side.ask

/-- Model of one symbol's book `l2_book[pair]`: `{BID: sd(), ASK: sd()}`.
A price absent from the sorted dict maps to `none`. -/
abbrev PriceMap := Side → ℚ → Option ℚ

/-- Model of one symbol's id index `order_id[pair]`, a `defaultdict(dict)`
from side to `id -> price`. -/
abbrev IdMap := Side → Nat → Option ℚ

/-- Model of the per-message `delta = {BID: [], ASK: []}` accumulator. -/
abbrev DeltaT := Side → List (ℚ × ℚ)

/-- Engine state of the `Bitmex` feed object.  `snapshot_received` models the
`self.partial_received` defaultdict(bool); `l2_book` and `order_id` model the
corresponding dicts, with `none` meaning the symbol key is absent (so that a
subscript access raises `KeyError`). -/
@[ext]
structure EngineState where
  snapshot_received : String → Bool
  l2_book : String → Option PriceMap
  order_id : String → Option IdMap

/-- The empty per-symbol book installed by `_reset`. -/
def emptyPB : PriceMap := fun _ _ => none

/-- The empty per-symbol id index installed by `_reset`. -/
def emptyIM : IdMap := fun _ _ => none

/-- A state in which every dict is empty (the freshly-constructed feed). -/
def emptyState : EngineState :=
  { snapshot_received := fun _ => false
  , l2_book := fun _ => none
  , order_id := fun _ => none }

/-- Models `Bitmex._reset` (bitmex.py lines 41-46): `partial_received` and
`order_id` are rebound to fresh dicts, while `l2_book` is mutated per
configured pair (keys outside `pairs` keep their old value). -/
def Bitmex.reset (pairs : List String) (s : EngineState) : EngineState :=
  { snapshot_received := fun _ => false
  , l2_book := fun q => if q ∈ pairs then some emptyPB else s.l2_book q
  , order_id := fun q => if q ∈ pairs then some emptyIM else none }

/-- Sets `self.partial_received[pair] = True`. -/
def setGate (s : EngineState) (pair : String) : EngineState :=
  { s with snapshot_received := fun q => if q = pair then true else s.snapshot_received q }

/-- Rebinds `self.l2_book[pair]`. -/
def setL2 (s : EngineState) (pair : String) (pb : PriceMap) : EngineState :=
  { s with l2_book := fun q => if q = pair then some pb else s.l2_book q }

/-- Rebinds `self.order_id[pair]`. -/
def setOrd (s : EngineState) (pair : String) (oi : IdMap) : EngineState :=
  { s with order_id := fun q => if q = pair then some oi else s.order_id q }

/-- Models `l2_book[pair][side][price] = size`. -/
def setBook (pb : PriceMap) (sd : Side) (p v : ℚ) : PriceMap :=
  fun s q => if s = sd ∧ q = p then some v else pb s q

/-- Models `del l2_book[pair][side][price]`. -/
def delBook (pb : PriceMap) (sd : Side) (p : ℚ) : PriceMap :=
  fun s q => if s = sd ∧ q = p then none else pb s q

/-- Models `order_id[pair][side][oid] = price`. -/
def setIdx (oi : IdMap) (sd : Side) (i : Nat) (p : ℚ) : IdMap :=
  fun s j => if s = sd ∧ j = i then some p else oi s j

/-- Models `del order_id[pair][side][oid]`. -/
def delIdx (oi : IdMap) (sd : Side) (i : Nat) : IdMap :=
  fun s j => if s = sd ∧ j = i then none else oi s j

/-- One record of a book message's `data` array.  `price` and `size` are
total here: the handler only reads the fields that the corresponding action
actually accesses, so entries of actions that carry no `price` (update,
delete) may hold an arbitrary value in that field. -/
structure BookEntry where
  symbol : String
  side : String
  price : ℚ
  size : ℚ
  id : Nat
deriving DecidableEq, Repr

/-- A decoded `orderBookL2` message: its `action` tag and `data` array. -/
structure BookMsg where
  action : String
  data : List BookEntry
deriving DecidableEq, Repr

/-- An error raised by `_book`: `indexError` for `msg['data'][0]` on an empty
array, `keyError` for a missing dict key (unknown symbol or order id). -/
inductive BookErr where
  | indexError
  | keyError
deriving DecidableEq, Repr

/-- The arguments of the `book_callback` invocation at bitmex.py line 151. -/
structure BookUpdate where
  book : PriceMap
  pair : String
  forced : Bool
  delta : DeltaT
  timestamp : ℚ
  receipt_timestamp : ℚ

/-- Result of running `_book` on one message: normal return with an optional
callback invocation, or an uncaught exception together with the state at the
moment it was raised. -/
inductive ProcResult where
  | ok (s : EngineState) (cb : Option BookUpdate)
  | err (e : BookErr) (s : EngineState)

/-- State held by the feed after `_book` returns or raises. -/
def ProcResult.state : ProcResult → EngineState
  | .ok s _ => s
  | .err _ s => s

/-- The callback delivered by `_book`, if any. -/
def ProcResult.cb : ProcResult → Option BookUpdate
  | .ok _ cb => cb
  | .err _ _ => none

/-- The exception escaping `_book`, if any. -/
def ProcResult.exn : ProcResult → Option BookErr
  | .ok _ _ => none
  | .err e _ => some e

/-- The empty delta accumulator. -/
def emptyDelta : DeltaT := fun _ => []

/-- Models `delta[side].append(x)`. -/
def pushDelta (d : DeltaT) (sd : Side) (x : ℚ × ℚ) : DeltaT :=
  fun s => if s = sd then d s ++ [x] else d s

/-- One iteration of the `partial` branch loop (bitmex.py lines 108-115):
`l2_book[pair][side][price] = size; order_id[pair][side][oid] = price`. -/
def applySnapEntry (pair : String) (s : EngineState) (e : BookEntry) :
    Except (BookErr × EngineState) EngineState :=
  match s.l2_book pair with
  | none => .error (.keyError, s)
  | some pb =>
    let s1 := setL2 s pair (setBook pb (sideOf e.side) e.price e.size)
    match s1.order_id pair with
    | none => .error (.keyError, s1)
    | some oi => .ok (setOrd s1 pair (setIdx oi (sideOf e.side) e.id e.price))

/-- The `partial` branch loop over `msg['data']`. -/
def foldSnap (pair : String) (s : EngineState) :
    List BookEntry → Except (BookErr × EngineState) EngineState
  | [] => .ok s
  | e :: rest =>
    match applySnapEntry pair s e with
    | .error es => .error es
    | .ok s' => foldSnap pair s' rest

/-- One iteration of the `insert` branch loop (bitmex.py lines 117-125):
like a snapshot entry, plus `delta[side].append((price, size))`. -/
def applyInsEntry (pair : String) (sd : EngineState × DeltaT) (e : BookEntry) :
    Except (BookErr × EngineState) (EngineState × DeltaT) :=
  match applySnapEntry pair sd.1 e with
  | .error es => .error es
  | .ok s' => .ok (s', pushDelta sd.2 (sideOf e.side) (e.price, e.size))

/-- The `insert` branch loop over `msg['data']`. -/
def foldIns (pair : String) (sd : EngineState × DeltaT) :
    List BookEntry → Except (BookErr × EngineState) (EngineState × DeltaT)
  | [] => .ok sd
  | e :: rest =>
    match applyInsEntry pair sd e with
    | .error es => .error es
    | .ok sd' => foldIns pair sd' rest

/-- One iteration of the `update` branch loop (bitmex.py lines 127-136):
`price = order_id[pair][side][oid]` (KeyError when absent), then
`l2_book[pair][side][price] = size`, re-affirm the index entry, append the
delta. -/
def applyUpdEntry (pair : String) (sd : EngineState × DeltaT) (e : BookEntry) :
    Except (BookErr × EngineState) (EngineState × DeltaT) :=
  let side := sideOf e.side
  match sd.1.order_id pair with
  | none => .error (.keyError, sd.1)
  | some oi =>
    match oi side e.id with
    | none => .error (.keyError, sd.1)
    | some price =>
      match sd.1.l2_book pair with
      | none => .error (.keyError, sd.1)
      | some pb =>
        let s1 := setL2 sd.1 pair (setBook pb side price e.size)
        match s1.order_id pair with
        | none => .error (.keyError, s1)
        | some oi1 =>
          let s2 := setOrd s1 pair (setIdx oi1 side e.id price)
          .ok (s2, pushDelta sd.2 side (price, e.size))

/-- The `update` branch loop over `msg['data']`. -/
def foldUpd (pair : String) (sd : EngineState × DeltaT) :
    List BookEntry → Except (BookErr × EngineState) (EngineState × DeltaT)
  | [] => .ok sd
  | e :: rest =>
    match applyUpdEntry pair sd e with
    | .error es => .error es
    | .ok sd' => foldUpd pair sd' rest

/-- One iteration of the `delete` branch loop (bitmex.py lines 138-145):
`delete_price = order_id[pair][side][oid]` (KeyError when absent), then
`del order_id[pair][side][oid]`, then `del l2_book[pair][side][delete_price]`
(KeyError when the price is not in the book, raised after the index entry is
already gone), append `(delete_price, 0)` to the delta. -/
def applyDelEntry (pair : String) (sd : EngineState × DeltaT) (e : BookEntry) :
    Except (BookErr × EngineState) (EngineState × DeltaT) :=
  let side := sideOf e.side
  match sd.1.order_id pair with
  | none => .error (.keyError, sd.1)
  | some oi =>
    match oi side e.id with
    | none => .error (.keyError, sd.1)
    | some delete_price =>
      let s1 := setOrd sd.1 pair (delIdx oi side e.id)
      match s1.l2_book pair with
      | none => .error (.keyError, s1)
      | some pb =>
        match pb side delete_price with
        | none => .error (.keyError, s1)
        | some _ =>
          let s2 := setL2 s1 pair (delBook pb side delete_price)
          .ok (s2, pushDelta sd.2 side (delete_price, 0))

/-- The `delete` branch loop over `msg['data']`. -/
def foldDel (pair : String) (sd : EngineState × DeltaT) :
    List BookEntry → Except (BookErr × EngineState) (EngineState × DeltaT)
  | [] => .ok sd
  | e :: rest =>
    match applyDelEntry pair sd e with
    | .error es => .error es
    | .ok sd' => foldDel pair sd' rest

/-- The tail of `_book` (bitmex.py line 151): look up `self.l2_book[pair]`
and invoke `book_callback(book, L2_BOOK, pair, forced, delta, timestamp,
timestamp)` — note that both timestamp arguments are the local receipt
timestamp. -/
def finish (pair : String) (forced : Bool) (delta : DeltaT) (ts : ℚ)
    (s : EngineState) : ProcResult :=
  match s.l2_book pair with
  | none => .err .keyError s
  | some pb => .ok s (some ⟨pb, pair, forced, delta, ts, ts⟩)

/-- Dispatch on `msg['action']` (bitmex.py lines 107-151) after the gating
check has already run; `s0` is the state after any gate update and `forced`
the flag computed by the gate block. -/
def dispatch (pair : String) (forced : Bool) (s0 : EngineState) (m : BookMsg)
    (ts : ℚ) : ProcResult :=
  if m.action = "partial" then
    match foldSnap pair s0 m.data with
    | .error (e, se) => .err e se
    | .ok s' => finish pair forced emptyDelta ts s'
  else if m.action = "insert" then
    match foldIns pair (s0, emptyDelta) m.data with
    | .error (e, se) => .err e se
    | .ok (s', d) => finish pair forced d ts s'
  else if m.action = "update" then
    match foldUpd pair (s0, emptyDelta) m.data with
    | .error (e, se) => .err e se
    | .ok (s', d) => finish pair forced d ts s'
  else if m.action = "delete" then
    match foldDel pair (s0, emptyDelta) m.data with
    | .error (e, se) => .err e se
    | .ok (s', d) => finish pair forced d ts s'
  else
    .ok s0 none

/-- Models `Bitmex._book` (bitmex.py lines 91-151).  `ts` is the `timestamp`
argument (local receipt time).  `pair` is read from the first entry of the
data array (`msg['data'][0]['symbol']`, IndexError when empty); a message
arriving while the gate is down is discarded unless its action is
`partial`, which opens the gate and sets `forced`. -/
def Bitmex.book (s : EngineState) (m : BookMsg) (ts : ℚ) : ProcResult :=
  match m.data with
  | [] => .err .indexError s
  | e0 :: _ =>
    let pair := e0.symbol
    if s.snapshot_received pair then
      dispatch pair false s m ts
    else if m.action = "partial" then
      dispatch pair true (setGate s pair) m ts
    else
      .ok s none

/-- One record of a trade message's `data` array (the fields `_trade`
reads). -/
structure TradeEntry where
  timestamp : String
  symbol : String
  side : String
  size : ℚ
  price : ℚ
  trdMatchID : String
deriving DecidableEq, Repr

/-- Trade side tokens `BUY` / `SELL`. -/
inductive TradeSide where
  | buy
  | sell
deriving DecidableEq, Repr

/-- The keyword arguments of the trade callback at bitmex.py lines 82-89. -/
structure TradeCB where
  pair : String
  side : TradeSide
  amount : ℚ
  price : ℚ
  order_id : String
  timestamp : ℚ
  receipt_timestamp : ℚ
deriving DecidableEq, Repr

/-- Models `Bitmex._trade` (bitmex.py lines 63-89).  `tsNorm` models
`timestamp_normalize(self.id, ·)` from `cryptofeed.standards` (not under
src/), kept abstract as a parameter: it converts the venue's ISO-8601 string
into a numeric UTC timestamp. -/
def Bitmex.trade (tsNorm : String → ℚ) (data : List TradeEntry) (ts : ℚ) :
    List TradeCB :=
  data.map fun d =>
    { pair := d.symbol
    , side := if d.side = "Buy" then TradeSide.buy else TradeSide.sell
    , amount := d.size
    , price := d.price
    , order_id := d.trdMatchID
    , timestamp := tsNorm d.timestamp
    , receipt_timestamp := ts }

/-- Lookup of `l2_book[p][sd][q]`, `none` when the symbol or price is
absent. -/
def stBook (s : EngineState) (p : String) (sd : Side) (q : ℚ) : Option ℚ :=
  match s.l2_book p with
  | none => none
  | some pb => pb sd q

/-- Lookup of `order_id[p][sd][i]`, `none` when the symbol or id is
absent. -/
def stIdx (s : EngineState) (p : String) (sd : Side) (i : Nat) : Option ℚ :=
  match s.order_id p with
  | none => none
  | some oi => oi sd i

/-- Lookup of the gate `partial_received[p]`. -/
def stGate (s : EngineState) (p : String) : Bool := s.snapshot_received p

/-- Runs a sequence of timestamped book messages, stopping with `none` when
one raises. A message discarded by the gate or by an unknown action tag still
counts as successfully processed (the handler returned normally). -/
def runMsgs (s : EngineState) : List (BookMsg × ℚ) → Option EngineState
  | [] => some s
  | (m, ts) :: rest =>
    match Bitmex.book s m ts with
    | .ok s' _ => runMsgs s' rest
    | .err _ _ => none

/-- The pure effect of a list of snapshot entries on one symbol's book. -/
def bookFold (pb : PriceMap) (es : List BookEntry) : PriceMap :=
  es.foldl (fun b e => setBook b (sideOf e.side) e.price e.size) pb

/-- The pure effect of a list of snapshot entries on one symbol's id index. -/
def idxFold (oi : IdMap) (es : List BookEntry) : IdMap :=
  es.foldl (fun o e => setIdx o (sideOf e.side) e.id e.price) oi

/-- Size written by the last entry of `es` matching side `sd` and price `p`,
if any: the value a sequence of dict writes leaves at that key. -/
def lookupLast (es : List BookEntry) (sd : Side) (p : ℚ) : Option ℚ :=
  match es with
  | [] => none
  | e :: rest =>
    match lookupLast rest sd p with
    | some v => some v
    | none => if sideOf e.side = sd ∧ e.price = p then some e.size else none

/-- All per-symbol state other than `pair`'s is the same in `s` and `s'`. -/
def FramePair (pair : String) (s s' : EngineState) : Prop :=
  ∀ q, q ≠ pair →
    s'.snapshot_received q = s.snapshot_received q ∧
    s'.l2_book q = s.l2_book q ∧
    s'.order_id q = s.order_id q

/-- State carried by an entry-loop outcome (normal or raising). -/
def exSt (r : Except (BookErr × EngineState) EngineState) : EngineState :=
  match r with
  | .ok s => s
  | .error es => es.2

/-- State carried by a delta-threading entry-loop outcome. -/
def exStD (r : Except (BookErr × EngineState) (EngineState × DeltaT)) :
    EngineState :=
  match r with
  | .ok sd => sd.1
  | .error es => es.2

/-- The index-consistency invariant: every id present in `order_id` maps to
a price with a live entry in `l2_book` for the same symbol and side. -/
def Indexed (s : EngineState) : Prop :=
  ∀ p sd i q, stIdx s p sd i = some q → (stBook s p sd q).isSome

/-- No two distinct live order ids of one symbol and side map to the same
price. -/
def InjIdx (s : EngineState) : Prop :=
  ∀ p sd i j q, stIdx s p sd i = some q → stIdx s p sd j = some q → i = j

/-- Rewrites every entry's `symbol` field to `σ`, leaving the rest of the
message intact. -/
def overwriteSyms (m : BookMsg) (σ : String) : BookMsg :=
  ⟨m.action, m.data.map fun e => { e with symbol := σ }⟩

/-! Concrete instances used by counterexamples and witnesses. -/

/-- Reset engine configured for the single symbol `"XBTUSD"`. -/
def cxReset : EngineState := Bitmex.reset ["XBTUSD"] emptyState

/-- A snapshot message: one bid order, id 1, price 100, size 5. -/
def cxSnap : BookMsg := ⟨"partial", [⟨"XBTUSD", "Buy", 100, 5, 1⟩]⟩

/-- A second snapshot message: one bid order, id 2, price 99, size 3. -/
def cxSnap2 : BookMsg := ⟨"partial", [⟨"XBTUSD", "Buy", 99, 3, 2⟩]⟩

/-- State after applying `cxSnap` to the reset engine. -/
def cxAfterSnap : EngineState := (Bitmex.book cxReset cxSnap 0).state

/-- An insert placing a second order (id 2) at the already occupied price
100. -/
def cxInsSamePrice : BookMsg := ⟨"insert", [⟨"XBTUSD", "Buy", 100, 6, 2⟩]⟩

/-- A delete of order id 1 (price and size fields are not read by the
delete branch). -/
def cxDel1 : BookMsg := ⟨"delete", [⟨"XBTUSD", "Buy", 0, 0, 1⟩]⟩

/-- An update message whose first entry updates the known id 1 to size 7 and
whose second entry references the unknown id 99. -/
def cxUpdThenUnknown : BookMsg :=
  ⟨"update", [⟨"XBTUSD", "Buy", 0, 7, 1⟩, ⟨"XBTUSD", "Buy", 0, 3, 99⟩]⟩

/-- A hand-built post-snapshot state: gate open for `"XBTUSD"`, book holding
a single bid level 100 ↦ 5, index holding 1 ↦ 100. -/
def cxLive : EngineState :=
  { snapshot_received := fun q => if q = "XBTUSD" then true else false
  , l2_book := fun q =>
      if q = "XBTUSD" then some (setBook emptyPB Side.bid 100 5) else none
  , order_id := fun q =>
      if q = "XBTUSD" then some (setIdx emptyIM Side.bid 1 100) else none }

/-- The id index of `cxLive` for `"XBTUSD"`. -/
def cxLiveIdx : IdMap := setIdx emptyIM Side.bid 1 100

/-- The book of `cxLive` for `"XBTUSD"`. -/
def cxLivePB : PriceMap := setBook emptyPB Side.bid 100 5

/-- A trade normalizer for tests: every venue timestamp maps to 42. -/
def cxTsNorm : String → ℚ := fun _ => 42

/-- A concrete trade record. -/
def cxTradeEntry : TradeEntry :=
  ⟨"2018-05-19T12:25:26.632Z", "XBTUSD", "Buy", 40, 8335, "t1"⟩

/-- The trade callback produced from `cxTradeEntry` at receipt time 5. -/
def cxTradeCB : TradeCB := ⟨"XBTUSD", TradeSide.buy, 40, 8335, "t1", 42, 5⟩

/-- The book update delivered for `cxSnap` at receipt time 5. -/
def cxSnapCB : BookUpdate :=
  ((Bitmex.book cxReset cxSnap 5).cb).getD ⟨emptyPB, "", false, emptyDelta, 0, 0⟩

/-- The single entry of `cxSnap`. -/
def cxEntry : BookEntry := ⟨"XBTUSD", "Buy", 100, 5, 1⟩

/-- An update entry for the known id 1 with new size 7 (price unread). -/
def cxUpdEntry : BookEntry := ⟨"XBTUSD", "Buy", 0, 7, 1⟩

/-- A delete entry for the known id 1 (price and size unread). -/
def cxDelEntry : BookEntry := ⟨"XBTUSD", "Buy", 0, 0, 1⟩

/-- An update entry referencing the unknown id 99. -/
def cxUnkEntry : BookEntry := ⟨"XBTUSD", "Buy", 0, 3, 99⟩

/-- An insert message whose two entries name different symbols. -/
def cxMixedSyms : BookMsg :=
  ⟨"insert", [⟨"XBTUSD", "Buy", 98, 1, 7⟩, ⟨"ETHUSD", "Sell", 200, 2, 8⟩]⟩

/-- Message trace: snapshot, insert of a second order at the occupied price
100, then delete of the first order. -/
def cxC3Msgs : List (BookMsg × ℚ) :=
  [(cxSnap, 0), (cxInsSamePrice, 1), (cxDel1, 2)]

/-- Final state of the `cxC3Msgs` trace. -/
def cxC3End : EngineState := (runMsgs cxReset cxC3Msgs).getD emptyState

/-! Basic lemmas about the state updaters and accessors. -/

@[simp] lemma setGate_l2_book (s : EngineState) (pair : String) :
    (setGate s pair).l2_book = s.l2_book := rfl

@[simp] lemma setGate_order_id (s : EngineState) (pair : String) :
    (setGate s pair).order_id = s.order_id := rfl

@[simp] lemma setGate_gate (s : EngineState) (pair q : String) :
    (setGate s pair).snapshot_received q =
      if q = pair then true else s.snapshot_received q := rfl

@[simp] lemma setL2_order_id (s : EngineState) (pair : String) (pb : PriceMap) :
    (setL2 s pair pb).order_id = s.order_id := rfl

@[simp] lemma setL2_gate (s : EngineState) (pair : String) (pb : PriceMap) :
    (setL2 s pair pb).snapshot_received = s.snapshot_received := rfl

@[simp] lemma setL2_l2_book (s : EngineState) (pair : String) (pb : PriceMap)
    (q : String) :
    (setL2 s pair pb).l2_book q = if q = pair then some pb else s.l2_book q := rfl

@[simp] lemma setOrd_l2_book (s : EngineState) (pair : String) (oi : IdMap) :
    (setOrd s pair oi).l2_book = s.l2_book := rfl

@[simp] lemma setOrd_gate (s : EngineState) (pair : String) (oi : IdMap) :
    (setOrd s pair oi).snapshot_received = s.snapshot_received := rfl

@[simp] lemma setOrd_order_id (s : EngineState) (pair : String) (oi : IdMap)
    (q : String) :
    (setOrd s pair oi).order_id q = if q = pair then some oi else s.order_id q := rfl

lemma stBook_of_some {s : EngineState} {p : String} {pb : PriceMap}
    (h : s.l2_book p = some pb) (sd : Side) (q : ℚ) :
    stBook s p sd q = pb sd q := by
  simp [stBook, h]

lemma stIdx_of_some {s : EngineState} {p : String} {oi : IdMap}
    (h : s.order_id p = some oi) (sd : Side) (i : Nat) :
    stIdx s p sd i = oi sd i := by
  simp [stIdx, h]

lemma stBook_setL2 (s : EngineState) (pair : String) (pb : PriceMap)
    (p : String) (sd : Side) (q : ℚ) :
    stBook (setL2 s pair pb) p sd q = if p = pair then pb sd q else stBook s p sd q := by
  by_cases h : p = pair <;> simp [stBook, h]

@[simp] lemma stBook_setOrd (s : EngineState) (pair : String) (oi : IdMap)
    (p : String) (sd : Side) (q : ℚ) :
    stBook (setOrd s pair oi) p sd q = stBook s p sd q := rfl

@[simp] lemma stBook_setGate (s : EngineState) (pair : String)
    (p : String) (sd : Side) (q : ℚ) :
    stBook (setGate s pair) p sd q = stBook s p sd q := rfl

lemma stIdx_setOrd (s : EngineState) (pair : String) (oi : IdMap)
    (p : String) (sd : Side) (i : Nat) :
    stIdx (setOrd s pair oi) p sd i = if p = pair then oi sd i else stIdx s p sd i := by
  by_cases h : p = pair <;> simp [stIdx, h]

@[simp] lemma stIdx_setL2 (s : EngineState) (pair : String) (pb : PriceMap)
    (p : String) (sd : Side) (i : Nat) :
    stIdx (setL2 s pair pb) p sd i = stIdx s p sd i := rfl

@[simp] lemma stIdx_setGate (s : EngineState) (pair : String)
    (p : String) (sd : Side) (i : Nat) :
    stIdx (setGate s pair) p sd i = stIdx s p sd i := rfl

@[simp] lemma bookFold_nil (pb : PriceMap) : bookFold pb [] = pb := rfl

@[simp] lemma bookFold_cons (pb : PriceMap) (e : BookEntry) (es : List BookEntry) :
    bookFold pb (e :: es) = bookFold (setBook pb (sideOf e.side) e.price e.size) es := rfl

@[simp] lemma idxFold_nil (oi : IdMap) : idxFold oi [] = oi := rfl

@[simp] lemma idxFold_cons (oi : IdMap) (e : BookEntry) (es : List BookEntry) :
    idxFold oi (e :: es) = idxFold (setIdx oi (sideOf e.side) e.id e.price) es := rfl

/-- Characterization of the `partial` loop: it never raises when the symbol
has both dicts, and its effect on the symbol's book and index is the pure
fold of the entries, with the gate and every other symbol untouched. -/
lemma foldSnap_ok (pair : String) :
    ∀ (es : List BookEntry) (s : EngineState) (pb : PriceMap) (oi : IdMap),
      s.l2_book pair = some pb → s.order_id pair = some oi →
      foldSnap pair s es =
        .ok { snapshot_received := s.snapshot_received
            , l2_book := fun q => if q = pair then some (bookFold pb es) else s.l2_book q
            , order_id := fun q => if q = pair then some (idxFold oi es) else s.order_id q } := by
  intro es
  induction es with
  | nil =>
    intro s pb oi hb ho
    simp only [foldSnap, bookFold_nil, idxFold_nil]
    congr 1
    refine EngineState.ext rfl ?_ ?_
    · funext q
      by_cases h : q = pair <;> simp [h, hb]
    · funext q
      by_cases h : q = pair <;> simp [h, ho]
  | cons e rest ih =>
    intro s pb oi hb ho
    have h1 : (setL2 s pair (setBook pb (sideOf e.side) e.price e.size)).order_id pair
        = some oi := by simp [ho]
    simp only [foldSnap, applySnapEntry, hb, h1]
    set s2 := setOrd (setL2 s pair (setBook pb (sideOf e.side) e.price e.size)) pair
      (setIdx oi (sideOf e.side) e.id e.price) with hs2
    have hb2 : s2.l2_book pair = some (setBook pb (sideOf e.side) e.price e.size) := by
      simp [hs2]
    have ho2 : s2.order_id pair = some (setIdx oi (sideOf e.side) e.id e.price) := by
      simp [hs2]
    rw [ih s2 _ _ hb2 ho2]
    congr 1
    refine EngineState.ext ?_ ?_ ?_
    · simp [hs2]
    · funext q
      by_cases h : q = pair <;> simp [h, hs2]
    · funext q
      by_cases h : q = pair <;> simp [h, hs2]

/-- A fold of snapshot entries looks up to the last matching write, falling
back to the base book. -/
lemma bookFold_lookup (sd : Side) (p : ℚ) :
    ∀ (es : List BookEntry) (pb : PriceMap),
      bookFold pb es sd p =
        match lookupLast es sd p with
        | some v => some v
        | none => pb sd p := by
  intro es
  induction es with
  | nil => intro pb; rfl
  | cons e rest ih =>
    intro pb
    rw [bookFold_cons, ih]
    have hun : lookupLast (e :: rest) sd p =
        match lookupLast rest sd p with
        | some v => some v
        | none => if sideOf e.side = sd ∧ e.price = p then some e.size else none := rfl
    rw [hun]
    rcases h : lookupLast rest sd p with _ | v
    · show (if sd = sideOf e.side ∧ p = e.price then some e.size else pb sd p) =
        match (if sideOf e.side = sd ∧ e.price = p then some e.size else none : Option ℚ) with
        | some v => some v
        | none => pb sd p
      by_cases hc : sideOf e.side = sd ∧ e.price = p
      · have h1 : sd = sideOf e.side ∧ p = e.price := ⟨hc.1.symm, hc.2.symm⟩
        rw [if_pos h1, if_pos hc]
      · have h1 : ¬(sd = sideOf e.side ∧ p = e.price) := by
          rintro ⟨a, b⟩; exact hc ⟨a.symm, b.symm⟩
        rw [if_neg h1, if_neg hc]
    · rfl

/-- Soundness of `lookupLast`: a hit comes from some entry of the list. -/
lemma lookupLast_some (sd : Side) (p : ℚ) :
    ∀ (es : List BookEntry) (v : ℚ), lookupLast es sd p = some v →
      ∃ e ∈ es, sideOf e.side = sd ∧ e.price = p ∧ e.size = v := by
  intro es
  induction es with
  | nil => intro v h; exact Option.noConfusion h
  | cons e rest ih =>
    intro v h
    have hun : lookupLast (e :: rest) sd p =
        match lookupLast rest sd p with
        | some v => some v
        | none => if sideOf e.side = sd ∧ e.price = p then some e.size else none := rfl
    rw [hun] at h
    rcases h1 : lookupLast rest sd p with _ | w
    · rw [h1] at h
      by_cases hc : sideOf e.side = sd ∧ e.price = p
      · rw [if_pos hc] at h
        exact ⟨e, List.mem_cons_self .., hc.1, hc.2, Option.some_inj.mp h⟩
      · rw [if_neg hc] at h
        exact absurd h (by simp)
    · rw [h1] at h
      obtain ⟨e', he', h2⟩ := ih w h1
      exact ⟨e', List.mem_cons_of_mem _ he', h2.1, h2.2.1, by
        rw [h2.2.2]; exact (Option.some_inj.mp h)⟩

/-- Completeness of `lookupLast` under per-(side, price) size agreement: an
entry of the list is found, with its own size. -/
lemma lookupLast_mem (sd : Side) (p : ℚ) :
    ∀ (es : List BookEntry),
      (∀ e1 ∈ es, ∀ e2 ∈ es, sideOf e1.side = sideOf e2.side →
        e1.price = e2.price → e1.size = e2.size) →
      ∀ e ∈ es, sideOf e.side = sd → e.price = p →
        lookupLast es sd p = some e.size := by
  intro es
  induction es with
  | nil => intro _ e he; simp at he
  | cons a rest ih =>
    intro hU e he hsd hp
    have hUr : ∀ e1 ∈ rest, ∀ e2 ∈ rest, sideOf e1.side = sideOf e2.side →
        e1.price = e2.price → e1.size = e2.size := fun e1 h1 e2 h2 =>
      hU e1 (List.mem_cons_of_mem _ h1) e2 (List.mem_cons_of_mem _ h2)
    have hun : lookupLast (a :: rest) sd p =
        match lookupLast rest sd p with
        | some v => some v
        | none => if sideOf a.side = sd ∧ a.price = p then some a.size else none := rfl
    rw [hun]
    rcases h1 : lookupLast rest sd p with _ | w
    · rcases List.mem_cons.mp he with rfl | hm
      · rw [if_pos ⟨hsd, hp⟩]
      · rw [ih hUr e hm hsd hp] at h1
        exact absurd h1 (by simp)
    · obtain ⟨e', he', hsd', hp', hsz'⟩ := lookupLast_some sd p rest w h1
      have : e.size = e'.size := by
        refine hU e he e' (List.mem_cons_of_mem _ he') ?_ ?_
        · rw [hsd, hsd']
        · rw [hp, hp']
      rw [this, hsz']

/-- Membership characterization of the book produced by folding snapshot
entries over an empty side, assuming entries sharing a side and price agree
on size. -/
lemma bookFold_iff (pb : PriceMap) (hpb : ∀ sd q, pb sd q = none)
    (es : List BookEntry)
    (hU : ∀ e1 ∈ es, ∀ e2 ∈ es, sideOf e1.side = sideOf e2.side →
      e1.price = e2.price → e1.size = e2.size)
    (sd : Side) (p v : ℚ) :
    bookFold pb es sd p = some v ↔
      ∃ e ∈ es, sideOf e.side = sd ∧ e.price = p ∧ e.size = v := by
  rw [bookFold_lookup]
  constructor
  · intro h
    rcases h1 : lookupLast es sd p with _ | w
    · rw [h1, hpb] at h; exact absurd h (by simp)
    · rw [h1] at h
      obtain ⟨e, he, h2⟩ := lookupLast_some sd p es w h1
      exact ⟨e, he, h2.1, h2.2.1, by rw [h2.2.2]; exact Option.some_inj.mp h⟩
  · rintro ⟨e, he, hsd, hp, hv⟩
    rw [lookupLast_mem sd p es hU e he hsd hp, hv]

/-! Frame lemmas: `_book` only ever touches the state of the symbol read
from the first entry of the message, even on the paths that raise. -/

lemma framePair_refl (pair : String) (s : EngineState) : FramePair pair s s :=
  fun _ _ => ⟨rfl, rfl, rfl⟩

lemma framePair_trans {pair : String} {s t u : EngineState}
    (h1 : FramePair pair s t) (h2 : FramePair pair t u) : FramePair pair s u :=
  fun q hq => ⟨((h2 q hq).1).trans (h1 q hq).1, ((h2 q hq).2.1).trans (h1 q hq).2.1,
    ((h2 q hq).2.2).trans (h1 q hq).2.2⟩

lemma framePair_setL2 (s : EngineState) (pair : String) (pb : PriceMap) :
    FramePair pair s (setL2 s pair pb) := by
  intro q hq
  refine ⟨rfl, ?_, rfl⟩
  simp [hq]

lemma framePair_setOrd (s : EngineState) (pair : String) (oi : IdMap) :
    FramePair pair s (setOrd s pair oi) := by
  intro q hq
  refine ⟨rfl, rfl, ?_⟩
  simp [hq]

lemma framePair_setGate (s : EngineState) (pair : String) :
    FramePair pair s (setGate s pair) := by
  intro q hq
  refine ⟨?_, rfl, rfl⟩
  simp [hq]

lemma frame_applySnap (pair : String) (s : EngineState) (e : BookEntry) :
    FramePair pair s (exSt (applySnapEntry pair s e)) := by
  simp only [applySnapEntry]
  rcases hb : s.l2_book pair with _ | pb
  · exact framePair_refl _ _
  · simp only [setL2_order_id]
    rcases ho : s.order_id pair with _ | oi
    · exact framePair_setL2 _ _ _
    · exact framePair_trans (framePair_setL2 _ _ _) (framePair_setOrd _ _ _)

lemma frame_foldSnap (pair : String) :
    ∀ (es : List BookEntry) (s : EngineState),
      FramePair pair s (exSt (foldSnap pair s es)) := by
  intro es
  induction es with
  | nil => intro s; exact framePair_refl _ _
  | cons e rest ih =>
    intro s
    have h0 := frame_applySnap pair s e
    simp only [foldSnap]
    rcases h : applySnapEntry pair s e with es' | s'
    · rw [h] at h0; exact h0
    · rw [h] at h0; exact framePair_trans h0 (ih s')

lemma frame_applyIns (pair : String) (sd : EngineState × DeltaT) (e : BookEntry) :
    FramePair pair sd.1 (exStD (applyInsEntry pair sd e)) := by
  have h0 := frame_applySnap pair sd.1 e
  simp only [applyInsEntry]
  rcases h : applySnapEntry pair sd.1 e with es' | s'
  · rw [h] at h0; exact h0
  · rw [h] at h0; exact h0

lemma frame_foldIns (pair : String) :
    ∀ (es : List BookEntry) (sd : EngineState × DeltaT),
      FramePair pair sd.1 (exStD (foldIns pair sd es)) := by
  intro es
  induction es with
  | nil => intro sd; exact framePair_refl _ _
  | cons e rest ih =>
    intro sd
    have h0 := frame_applyIns pair sd e
    simp only [foldIns]
    rcases h : applyInsEntry pair sd e with es' | sd'
    · rw [h] at h0; exact h0
    · rw [h] at h0; exact framePair_trans h0 (ih sd')

lemma frame_applyUpd (pair : String) (sd : EngineState × DeltaT) (e : BookEntry) :
    FramePair pair sd.1 (exStD (applyUpdEntry pair sd e)) := by
  rcases ho : sd.1.order_id pair with _ | oi
  · simp only [applyUpdEntry, ho]
    exact framePair_refl _ _
  · rcases hi : oi (sideOf e.side) e.id with _ | price
    · simp only [applyUpdEntry, ho, hi]
      exact framePair_refl _ _
    · rcases hb : sd.1.l2_book pair with _ | pb
      · simp only [applyUpdEntry, ho, hi, hb]
        exact framePair_refl _ _
      · simp only [applyUpdEntry, ho, hi, hb, setL2_order_id]
        exact framePair_trans (framePair_setL2 _ _ _) (framePair_setOrd _ _ _)

lemma frame_foldUpd (pair : String) :
    ∀ (es : List BookEntry) (sd : EngineState × DeltaT),
      FramePair pair sd.1 (exStD (foldUpd pair sd es)) := by
  intro es
  induction es with
  | nil => intro sd; exact framePair_refl _ _
  | cons e rest ih =>
    intro sd
    have h0 := frame_applyUpd pair sd e
    simp only [foldUpd]
    rcases h : applyUpdEntry pair sd e with es' | sd'
    · rw [h] at h0; exact h0
    · rw [h] at h0; exact framePair_trans h0 (ih sd')

lemma frame_applyDel (pair : String) (sd : EngineState × DeltaT) (e : BookEntry) :
    FramePair pair sd.1 (exStD (applyDelEntry pair sd e)) := by
  rcases ho : sd.1.order_id pair with _ | oi
  · simp only [applyDelEntry, ho]
    exact framePair_refl _ _
  · rcases hi : oi (sideOf e.side) e.id with _ | price
    · simp only [applyDelEntry, ho, hi]
      exact framePair_refl _ _
    · rcases hb : sd.1.l2_book pair with _ | pb
      · simp only [applyDelEntry, ho, hi, setOrd_l2_book, hb]
        exact framePair_setOrd _ _ _
      · rcases hl : pb (sideOf e.side) price with _ | v
        · simp only [applyDelEntry, ho, hi, setOrd_l2_book, hb, hl]
          exact framePair_setOrd _ _ _
        · simp only [applyDelEntry, ho, hi, setOrd_l2_book, hb, hl]
          exact framePair_trans (framePair_setOrd _ _ _) (framePair_setL2 _ _ _)

lemma frame_foldDel (pair : String) :
    ∀ (es : List BookEntry) (sd : EngineState × DeltaT),
      FramePair pair sd.1 (exStD (foldDel pair sd es)) := by
  intro es
  induction es with
  | nil => intro sd; exact framePair_refl _ _
  | cons e rest ih =>
    intro sd
    have h0 := frame_applyDel pair sd e
    simp only [foldDel]
    rcases h : applyDelEntry pair sd e with es' | sd'
    · rw [h] at h0; exact h0
    · rw [h] at h0; exact framePair_trans h0 (ih sd')

lemma state_finish (pair : String) (forced : Bool) (d : DeltaT) (ts : ℚ)
    (s : EngineState) : (finish pair forced d ts s).state = s := by
  simp only [finish]
  rcases h : s.l2_book pair with _ | pb <;> rfl

lemma frame_dispatch (pair : String) (forced : Bool) (s0 : EngineState)
    (m : BookMsg) (ts : ℚ) :
    FramePair pair s0 (dispatch pair forced s0 m ts).state := by
  simp only [dispatch]
  by_cases h1 : m.action = "partial"
  · simp only [h1, if_pos, if_true]
    have h0 := frame_foldSnap pair m.data s0
    rcases h : foldSnap pair s0 m.data with ⟨e, se⟩ | s'
    · rw [h] at h0; exact h0
    · rw [h] at h0; rw [state_finish]; exact h0
  · rw [if_neg h1]
    by_cases h2 : m.action = "insert"
    · rw [if_pos h2]
      have h0 := frame_foldIns pair m.data (s0, emptyDelta)
      rcases h : foldIns pair (s0, emptyDelta) m.data with ⟨e, se⟩ | ⟨s', d⟩
      · rw [h] at h0; exact h0
      · rw [h] at h0; rw [state_finish]; exact h0
    · rw [if_neg h2]
      by_cases h3 : m.action = "update"
      · rw [if_pos h3]
        have h0 := frame_foldUpd pair m.data (s0, emptyDelta)
        rcases h : foldUpd pair (s0, emptyDelta) m.data with ⟨e, se⟩ | ⟨s', d⟩
        · rw [h] at h0; exact h0
        · rw [h] at h0; rw [state_finish]; exact h0
      · rw [if_neg h3]
        by_cases h4 : m.action = "delete"
        · rw [if_pos h4]
          have h0 := frame_foldDel pair m.data (s0, emptyDelta)
          rcases h : foldDel pair (s0, emptyDelta) m.data with ⟨e, se⟩ | ⟨s', d⟩
          · rw [h] at h0; exact h0
          · rw [h] at h0; rw [state_finish]; exact h0
        · rw [if_neg h4]
          exact framePair_refl _ _

lemma frame_book (s : EngineState) (m : BookMsg) (ts : ℚ)
    (e0 : BookEntry) (rest : List BookEntry) (hdata : m.data = e0 :: rest) :
    FramePair e0.symbol s (Bitmex.book s m ts).state := by
  simp only [Bitmex.book, hdata]
  by_cases hg : s.snapshot_received e0.symbol
  · rw [if_pos hg]
    exact frame_dispatch _ _ _ _ _
  · rw [if_neg hg]
    by_cases ha : m.action = "partial"
    · rw [if_pos ha]
      exact framePair_trans (framePair_setGate _ _) (frame_dispatch _ _ _ _ _)
    · rw [if_neg ha]
      exact framePair_refl _ _

/-! Inversion lemmas for the per-entry loop bodies. -/

lemma applySnapEntry_ok_inv {pair : String} {s : EngineState} {e : BookEntry}
    {s' : EngineState} (h : applySnapEntry pair s e = .ok s') :
    ∃ pb oi, s.l2_book pair = some pb ∧ s.order_id pair = some oi ∧
      s' = setOrd (setL2 s pair (setBook pb (sideOf e.side) e.price e.size))
        pair (setIdx oi (sideOf e.side) e.id e.price) := by
  rcases hb : s.l2_book pair with _ | pb
  · simp [applySnapEntry, hb] at h
  · rcases ho : s.order_id pair with _ | oi
    · simp [applySnapEntry, hb, setL2_order_id, ho] at h
    · simp only [applySnapEntry, hb, setL2_order_id, ho, Except.ok.injEq] at h
      exact ⟨pb, oi, rfl, rfl, h.symm⟩

lemma applyInsEntry_ok_inv {pair : String} {sd : EngineState × DeltaT}
    {e : BookEntry} {s' : EngineState} {d' : DeltaT}
    (h : applyInsEntry pair sd e = .ok (s', d')) :
    applySnapEntry pair sd.1 e = .ok s' ∧
      d' = pushDelta sd.2 (sideOf e.side) (e.price, e.size) := by
  rcases hs : applySnapEntry pair sd.1 e with es | s1
  · simp [applyInsEntry, hs] at h
  · simp only [applyInsEntry, hs, Except.ok.injEq, Prod.mk.injEq] at h
    exact ⟨by rw [h.1], h.2.symm⟩

lemma applyUpdEntry_ok_inv {pair : String} {sd : EngineState × DeltaT}
    {e : BookEntry} {s' : EngineState} {d' : DeltaT}
    (h : applyUpdEntry pair sd e = .ok (s', d')) :
    ∃ oi price pb, sd.1.order_id pair = some oi ∧
      oi (sideOf e.side) e.id = some price ∧
      sd.1.l2_book pair = some pb ∧
      s' = setOrd (setL2 sd.1 pair (setBook pb (sideOf e.side) price e.size))
        pair (setIdx oi (sideOf e.side) e.id price) ∧
      d' = pushDelta sd.2 (sideOf e.side) (price, e.size) := by
  rcases ho : sd.1.order_id pair with _ | oi
  · simp [applyUpdEntry, ho] at h
  · rcases hi : oi (sideOf e.side) e.id with _ | price
    · simp [applyUpdEntry, ho, hi] at h
    · rcases hb : sd.1.l2_book pair with _ | pb
      · simp [applyUpdEntry, ho, hi, hb] at h
      · simp only [applyUpdEntry, ho, hi, hb, setL2_order_id, Except.ok.injEq,
          Prod.mk.injEq] at h
        exact ⟨oi, price, pb, rfl, hi, rfl, h.1.symm, h.2.symm⟩

lemma applyDelEntry_ok_inv {pair : String} {sd : EngineState × DeltaT}
    {e : BookEntry} {s' : EngineState} {d' : DeltaT}
    (h : applyDelEntry pair sd e = .ok (s', d')) :
    ∃ oi price pb v, sd.1.order_id pair = some oi ∧
      oi (sideOf e.side) e.id = some price ∧
      sd.1.l2_book pair = some pb ∧
      pb (sideOf e.side) price = some v ∧
      s' = setL2 (setOrd sd.1 pair (delIdx oi (sideOf e.side) e.id))
        pair (delBook pb (sideOf e.side) price) ∧
      d' = pushDelta sd.2 (sideOf e.side) (price, 0) := by
  rcases ho : sd.1.order_id pair with _ | oi
  · simp [applyDelEntry, ho] at h
  · rcases hi : oi (sideOf e.side) e.id with _ | price
    · simp [applyDelEntry, ho, hi] at h
    · rcases hb : sd.1.l2_book pair with _ | pb
      · simp [applyDelEntry, ho, hi, setOrd_l2_book, hb] at h
      · rcases hl : pb (sideOf e.side) price with _ | v
        · simp [applyDelEntry, ho, hi, setOrd_l2_book, hb, hl] at h
        · simp only [applyDelEntry, ho, hi, setOrd_l2_book, hb, hl, Except.ok.injEq,
            Prod.mk.injEq] at h
          exact ⟨oi, price, pb, v, rfl, hi, rfl, hl, h.1.symm, h.2.symm⟩

lemma finish_ok_inv {pair : String} {forced : Bool} {d : DeltaT} {ts : ℚ}
    {s s' : EngineState} {cb : Option BookUpdate}
    (h : finish pair forced d ts s = .ok s' cb) : s' = s := by
  rcases hb : s.l2_book pair with _ | pb
  · simp [finish, hb] at h
  · simp only [finish, hb, ProcResult.ok.injEq] at h
    exact h.1.symm

/-! Preservation of the index-consistency invariant. -/

lemma indexed_applySnap {pair : String} {s s' : EngineState} {e : BookEntry}
    (hInd : Indexed s) (h : applySnapEntry pair s e = .ok s') : Indexed s' := by
  obtain ⟨pb, oi, hb, ho, rfl⟩ := applySnapEntry_ok_inv h
  intro p sd i q hq
  rw [stIdx_setOrd] at hq
  rw [stBook_setOrd, stBook_setL2]
  by_cases hp : p = pair
  · rw [if_pos hp] at hq
    rw [if_pos hp]
    simp only [setIdx] at hq
    by_cases hc : sd = sideOf e.side ∧ i = e.id
    · rw [if_pos hc] at hq
      obtain ⟨rfl, -⟩ := hc
      have : q = e.price := (Option.some_inj.mp hq).symm
      subst this
      simp [setBook]
    · rw [if_neg hc] at hq
      have hq' : stIdx s pair sd i = some q := by rw [stIdx_of_some ho]; exact hq
      have := hInd pair sd i q hq'
      rw [stBook_of_some hb] at this
      simp only [setBook]
      by_cases hd : sd = sideOf e.side ∧ q = e.price
      · rw [if_pos hd]; rfl
      · rw [if_neg hd]; exact this
  · rw [if_neg hp] at hq
    rw [stIdx_setL2] at hq
    rw [if_neg hp]
    exact hInd p sd i q hq

lemma indexed_foldSnap {pair : String} :
    ∀ {es : List BookEntry} {s s' : EngineState},
      Indexed s → foldSnap pair s es = .ok s' → Indexed s' := by
  intro es
  induction es with
  | nil =>
    intro s s' hInd h
    simp only [foldSnap, Except.ok.injEq] at h
    exact h ▸ hInd
  | cons e rest ih =>
    intro s s' hInd h
    simp only [foldSnap] at h
    rcases ha : applySnapEntry pair s e with es' | s1
    · rw [ha] at h; exact absurd h (by simp)
    · rw [ha] at h
      exact ih (indexed_applySnap hInd ha) h

lemma indexed_foldIns {pair : String} :
    ∀ {es : List BookEntry} {sd : EngineState × DeltaT} {s' : EngineState}
      {d' : DeltaT}, Indexed sd.1 → foldIns pair sd es = .ok (s', d') →
      Indexed s' := by
  intro es
  induction es with
  | nil =>
    intro sd s' d' hInd h
    simp only [foldIns, Except.ok.injEq] at h
    have : sd.1 = s' := by rw [h]
    exact this ▸ hInd
  | cons e rest ih =>
    intro sd s' d' hInd h
    simp only [foldIns] at h
    rcases ha : applyInsEntry pair sd e with es' | ⟨s1, d1⟩
    · rw [ha] at h; exact absurd h (by simp)
    · rw [ha] at h
      obtain ⟨hsnap, -⟩ := applyInsEntry_ok_inv ha
      exact ih (indexed_applySnap hInd hsnap) h

lemma indexed_applyUpd {pair : String} {sd : EngineState × DeltaT}
    {e : BookEntry} {s' : EngineState} {d' : DeltaT}
    (hInd : Indexed sd.1) (h : applyUpdEntry pair sd e = .ok (s', d')) :
    Indexed s' := by
  obtain ⟨oi, price, pb, ho, hi, hb, rfl, -⟩ := applyUpdEntry_ok_inv h
  intro p sd' i q hq
  rw [stIdx_setOrd] at hq
  rw [stBook_setOrd, stBook_setL2]
  by_cases hp : p = pair
  · rw [if_pos hp] at hq
    rw [if_pos hp]
    simp only [setIdx] at hq
    by_cases hc : sd' = sideOf e.side ∧ i = e.id
    · rw [if_pos hc] at hq
      obtain ⟨rfl, -⟩ := hc
      have : q = price := (Option.some_inj.mp hq).symm
      subst this
      simp [setBook]
    · rw [if_neg hc] at hq
      have hq' : stIdx sd.1 pair sd' i = some q := by rw [stIdx_of_some ho]; exact hq
      have := hInd pair sd' i q hq'
      rw [stBook_of_some hb] at this
      simp only [setBook]
      by_cases hd : sd' = sideOf e.side ∧ q = price
      · rw [if_pos hd]; rfl
      · rw [if_neg hd]; exact this
  · rw [if_neg hp] at hq
    rw [stIdx_setL2] at hq
    rw [if_neg hp]
    exact hInd p sd' i q hq

lemma indexed_foldUpd {pair : String} :
    ∀ {es : List BookEntry} {sd : EngineState × DeltaT} {s' : EngineState}
      {d' : DeltaT}, Indexed sd.1 → foldUpd pair sd es = .ok (s', d') →
      Indexed s' := by
  intro es
  induction es with
  | nil =>
    intro sd s' d' hInd h
    simp only [foldUpd, Except.ok.injEq] at h
    have : sd.1 = s' := by rw [h]
    exact this ▸ hInd
  | cons e rest ih =>
    intro sd s' d' hInd h
    simp only [foldUpd] at h
    rcases ha : applyUpdEntry pair sd e with es' | ⟨s1, d1⟩
    · rw [ha] at h; exact absurd h (by simp)
    · rw [ha] at h
      exact ih (indexed_applyUpd hInd ha) h

lemma indexed_applyDel {pair : String} {sd : EngineState × DeltaT}
    {e : BookEntry} {s' : EngineState} {d' : DeltaT}
    (hInd : Indexed sd.1) (hInj : InjIdx sd.1)
    (h : applyDelEntry pair sd e = .ok (s', d')) :
    Indexed s' ∧ InjIdx s' := by
  obtain ⟨oi, price, pb, v, ho, hi, hb, hl, rfl, -⟩ := applyDelEntry_ok_inv h
  have hsub : ∀ p sd' i q,
      stIdx (setL2 (setOrd sd.1 pair (delIdx oi (sideOf e.side) e.id))
        pair (delBook pb (sideOf e.side) price)) p sd' i = some q →
      stIdx sd.1 p sd' i = some q := by
    intro p sd' i q hq
    rw [stIdx_setL2, stIdx_setOrd] at hq
    by_cases hp : p = pair
    · rw [if_pos hp] at hq
      simp only [delIdx] at hq
      by_cases hc : sd' = sideOf e.side ∧ i = e.id
      · rw [if_pos hc] at hq; exact absurd hq (by simp)
      · rw [if_neg hc] at hq
        rw [hp, stIdx_of_some ho]
        exact hq
    · rw [if_neg hp] at hq
      exact hq
  constructor
  · intro p sd' i q hq
    have hq0 := hsub p sd' i q hq
    rw [stIdx_setL2, stIdx_setOrd] at hq
    rw [stBook_setL2]
    by_cases hp : p = pair
    · rw [if_pos hp] at hq
      rw [if_pos hp]
      simp only [delIdx] at hq
      by_cases hc : sd' = sideOf e.side ∧ i = e.id
      · rw [if_pos hc] at hq; exact absurd hq (by simp)
      · rw [if_neg hc] at hq
        have hIs := hInd p sd' i q hq0
        rw [hp, stBook_of_some hb] at hIs
        simp only [delBook]
        by_cases hd : sd' = sideOf e.side ∧ q = price
        · exfalso
          have h1 : stIdx sd.1 pair (sideOf e.side) i = some price := by
            rw [hp, hd.1, hd.2] at hq0
            exact hq0
          have h2 : stIdx sd.1 pair (sideOf e.side) e.id = some price := by
            rw [stIdx_of_some ho]
            exact hi
          exact hc ⟨hd.1, hInj pair (sideOf e.side) i e.id price h1 h2⟩
        · rw [if_neg hd]; exact hIs
    · rw [if_neg hp] at hq
      rw [if_neg hp]
      have := hInd p sd' i q hq0
      rwa [stBook_setOrd]
  · intro p sd' i j q h1 h2
    exact hInj p sd' i j q (hsub p sd' i q h1) (hsub p sd' j q h2)

lemma indexed_foldDel {pair : String} :
    ∀ {es : List BookEntry} {sd : EngineState × DeltaT} {s' : EngineState}
      {d' : DeltaT}, Indexed sd.1 → InjIdx sd.1 →
      foldDel pair sd es = .ok (s', d') → Indexed s' := by
  intro es
  induction es with
  | nil =>
    intro sd s' d' hInd _ h
    simp only [foldDel, Except.ok.injEq] at h
    have : sd.1 = s' := by rw [h]
    exact this ▸ hInd
  | cons e rest ih =>
    intro sd s' d' hInd hInj h
    simp only [foldDel] at h
    rcases ha : applyDelEntry pair sd e with es' | ⟨s1, d1⟩
    · rw [ha] at h; exact absurd h (by simp)
    · rw [ha] at h
      obtain ⟨hInd1, hInj1⟩ := indexed_applyDel hInd hInj ha
      exact ih hInd1 hInj1 h

lemma indexed_dispatch {pair : String} {forced : Bool} {s0 : EngineState}
    {m : BookMsg} {ts : ℚ} {s' : EngineState} {cb : Option BookUpdate}
    (hInd : Indexed s0) (hInj : InjIdx s0)
    (h : dispatch pair forced s0 m ts = .ok s' cb) : Indexed s' := by
  simp only [dispatch] at h
  by_cases h1 : m.action = "partial"
  · rw [if_pos h1] at h
    rcases hf : foldSnap pair s0 m.data with ⟨e, se⟩ | s1 <;> rw [hf] at h
    · exact ProcResult.noConfusion h
    · rw [finish_ok_inv h]
      exact indexed_foldSnap hInd hf
  · rw [if_neg h1] at h
    by_cases h2 : m.action = "insert"
    · rw [if_pos h2] at h
      rcases hf : foldIns pair (s0, emptyDelta) m.data with ⟨e, se⟩ | ⟨s1, d1⟩ <;>
        rw [hf] at h
      · exact ProcResult.noConfusion h
      · rw [finish_ok_inv h]
        exact indexed_foldIns hInd hf
    · rw [if_neg h2] at h
      by_cases h3 : m.action = "update"
      · rw [if_pos h3] at h
        rcases hf : foldUpd pair (s0, emptyDelta) m.data with ⟨e, se⟩ | ⟨s1, d1⟩ <;>
          rw [hf] at h
        · exact ProcResult.noConfusion h
        · rw [finish_ok_inv h]
          exact indexed_foldUpd hInd hf
      · rw [if_neg h3] at h
        by_cases h4 : m.action = "delete"
        · rw [if_pos h4] at h
          rcases hf : foldDel pair (s0, emptyDelta) m.data with ⟨e, se⟩ | ⟨s1, d1⟩ <;>
            rw [hf] at h
          · exact ProcResult.noConfusion h
          · rw [finish_ok_inv h]
            exact indexed_foldDel hInd hInj hf
        · rw [if_neg h4] at h
          simp only [ProcResult.ok.injEq] at h
          exact h.1 ▸ hInd

/-- One successfully handled book message preserves the index-consistency
invariant, provided the incoming state has an injective index. -/
lemma indexed_book {s : EngineState} {m : BookMsg} {ts : ℚ} {s' : EngineState}
    {cb : Option BookUpdate} (hInd : Indexed s) (hInj : InjIdx s)
    (h : Bitmex.book s m ts = .ok s' cb) : Indexed s' := by
  rcases hdata : m.data with _ | ⟨e0, rest⟩ <;> simp only [Bitmex.book, hdata] at h
  · exact ProcResult.noConfusion h
  · by_cases hg : s.snapshot_received e0.symbol
    · rw [if_pos hg] at h
      exact indexed_dispatch hInd hInj h
    · rw [if_neg hg] at h
      by_cases ha : m.action = "partial"
      · rw [if_pos ha] at h
        have hInd' : Indexed (setGate s e0.symbol) := fun p sd i q hq =>
          hInd p sd i q hq
        have hInj' : InjIdx (setGate s e0.symbol) := fun p sd i j q h1 h2 =>
          hInj p sd i j q h1 h2
        exact indexed_dispatch hInd' hInj' h
      · rw [if_neg ha] at h
        simp only [ProcResult.ok.injEq] at h
        exact h.1 ▸ hInd

lemma stIdx_reset (pairs : List String) (s : EngineState) (p : String)
    (sd : Side) (i : Nat) : stIdx (Bitmex.reset pairs s) p sd i = none := by
  by_cases h : p ∈ pairs <;> simp [stIdx, Bitmex.reset, h, emptyIM]

lemma indexed_reset (pairs : List String) (s : EngineState) :
    Indexed (Bitmex.reset pairs s) := by
  intro p sd i q hq
  rw [stIdx_reset] at hq
  exact Option.noConfusion hq

lemma injIdx_reset (pairs : List String) (s : EngineState) :
    InjIdx (Bitmex.reset pairs s) := by
  intro p sd i j q h1 h2
  rw [stIdx_reset] at h1
  exact Option.noConfusion h1

/-- Invariant preservation along a whole trace of handled messages, given
index injectivity at every intermediate state. -/
lemma runMsgs_indexed :
    ∀ (msgs : List (BookMsg × ℚ)) (s sEnd : EngineState),
      Indexed s →
      (∀ pre t, pre <+: msgs → runMsgs s pre = some t → InjIdx t) →
      runMsgs s msgs = some sEnd → Indexed sEnd := by
  intro msgs
  induction msgs with
  | nil =>
    intro s sEnd hInd _ hrun
    simp only [runMsgs, Option.some.injEq] at hrun
    exact hrun ▸ hInd
  | cons mt rest ih =>
    intro s sEnd hInd hinj hrun
    rcases mt with ⟨m, ts⟩
    simp only [runMsgs] at hrun
    rcases hb : Bitmex.book s m ts with ⟨s1, cb⟩ | ⟨e, se⟩ <;> rw [hb] at hrun
    · have hInjS : InjIdx s := hinj [] s List.nil_prefix rfl
      refine ih s1 sEnd (indexed_book hInd hInjS hb) ?_ hrun
      intro pre t hpre hrun'
      obtain ⟨tl, htl⟩ := hpre
      refine hinj ((m, ts) :: pre) t ⟨tl, by rw [List.cons_append, htl]⟩ ?_
      simp only [runMsgs, hb]
      exact hrun'
    · exact Option.noConfusion hrun

/-! Timestamps carried by the book callback. -/

lemma cb_timestamps_finish {pair : String} {forced : Bool} {d : DeltaT}
    {ts : ℚ} {s s' : EngineState} {cb : BookUpdate}
    (h : finish pair forced d ts s = .ok s' (some cb)) :
    cb.timestamp = ts ∧ cb.receipt_timestamp = ts := by
  rcases hb : s.l2_book pair with _ | pb
  · simp [finish, hb] at h
  · simp only [finish, hb, ProcResult.ok.injEq, Option.some.injEq] at h
    exact ⟨by rw [← h.2], by rw [← h.2]⟩

lemma cb_timestamps_dispatch {pair : String} {forced : Bool} {s0 : EngineState}
    {m : BookMsg} {ts : ℚ} {s' : EngineState} {cb : BookUpdate}
    (h : dispatch pair forced s0 m ts = .ok s' (some cb)) :
    cb.timestamp = ts ∧ cb.receipt_timestamp = ts := by
  simp only [dispatch] at h
  by_cases h1 : m.action = "partial"
  · rw [if_pos h1] at h
    rcases hf : foldSnap pair s0 m.data with ⟨e, se⟩ | s1 <;> rw [hf] at h
    · exact ProcResult.noConfusion h
    · exact cb_timestamps_finish h
  · rw [if_neg h1] at h
    by_cases h2 : m.action = "insert"
    · rw [if_pos h2] at h
      rcases hf : foldIns pair (s0, emptyDelta) m.data with ⟨e, se⟩ | ⟨s1, d1⟩ <;>
        rw [hf] at h
      · exact ProcResult.noConfusion h
      · exact cb_timestamps_finish h
    · rw [if_neg h2] at h
      by_cases h3 : m.action = "update"
      · rw [if_pos h3] at h
        rcases hf : foldUpd pair (s0, emptyDelta) m.data with ⟨e, se⟩ | ⟨s1, d1⟩ <;>
          rw [hf] at h
        · exact ProcResult.noConfusion h
        · exact cb_timestamps_finish h
      · rw [if_neg h3] at h
        by_cases h4 : m.action = "delete"
        · rw [if_pos h4] at h
          rcases hf : foldDel pair (s0, emptyDelta) m.data with ⟨e, se⟩ | ⟨s1, d1⟩ <;>
            rw [hf] at h
          · exact ProcResult.noConfusion h
          · exact cb_timestamps_finish h
        · rw [if_neg h4] at h
          simp only [ProcResult.ok.injEq] at h
          exact Option.noConfusion h.2

lemma cb_timestamps_book {s : EngineState} {m : BookMsg} {ts : ℚ}
    {s' : EngineState} {cb : BookUpdate}
    (h : Bitmex.book s m ts = .ok s' (some cb)) :
    cb.timestamp = ts ∧ cb.receipt_timestamp = ts := by
  rcases hdata : m.data with _ | ⟨e0, rest⟩ <;> simp only [Bitmex.book, hdata] at h
  · exact ProcResult.noConfusion h
  · by_cases hg : s.snapshot_received e0.symbol
    · rw [if_pos hg] at h
      exact cb_timestamps_dispatch h
    · rw [if_neg hg] at h
      by_cases ha : m.action = "partial"
      · rw [if_pos ha] at h
        exact cb_timestamps_dispatch h
      · rw [if_neg ha] at h
        simp only [ProcResult.ok.injEq] at h
        exact Option.noConfusion h.2

/-! The entry loops never read the per-entry `symbol` field. -/

lemma applySnapEntry_symbol (pair : String) (s : EngineState) (e : BookEntry)
    (σ : String) :
    applySnapEntry pair s { e with symbol := σ } = applySnapEntry pair s e := rfl

lemma applyInsEntry_symbol (pair : String) (sd : EngineState × DeltaT)
    (e : BookEntry) (σ : String) :
    applyInsEntry pair sd { e with symbol := σ } = applyInsEntry pair sd e := rfl

lemma applyUpdEntry_symbol (pair : String) (sd : EngineState × DeltaT)
    (e : BookEntry) (σ : String) :
    applyUpdEntry pair sd { e with symbol := σ } = applyUpdEntry pair sd e := rfl

lemma applyDelEntry_symbol (pair : String) (sd : EngineState × DeltaT)
    (e : BookEntry) (σ : String) :
    applyDelEntry pair sd { e with symbol := σ } = applyDelEntry pair sd e := rfl

lemma foldSnap_map_symbol (pair σ : String) :
    ∀ (l : List BookEntry) (s : EngineState),
      foldSnap pair s (l.map fun e => { e with symbol := σ }) = foldSnap pair s l := by
  intro l
  induction l with
  | nil => intro s; rfl
  | cons e rest ih =>
    intro s
    simp only [List.map_cons, foldSnap, applySnapEntry_symbol]
    rcases h : applySnapEntry pair s e with es | s1
    · rfl
    · exact ih s1

lemma foldIns_map_symbol (pair σ : String) :
    ∀ (l : List BookEntry) (sd : EngineState × DeltaT),
      foldIns pair sd (l.map fun e => { e with symbol := σ }) = foldIns pair sd l := by
  intro l
  induction l with
  | nil => intro sd; rfl
  | cons e rest ih =>
    intro sd
    simp only [List.map_cons, foldIns, applyInsEntry_symbol]
    rcases h : applyInsEntry pair sd e with es | sd1
    · rfl
    · exact ih sd1

lemma foldUpd_map_symbol (pair σ : String) :
    ∀ (l : List BookEntry) (sd : EngineState × DeltaT),
      foldUpd pair sd (l.map fun e => { e with symbol := σ }) = foldUpd pair sd l := by
  intro l
  induction l with
  | nil => intro sd; rfl
  | cons e rest ih =>
    intro sd
    simp only [List.map_cons, foldUpd, applyUpdEntry_symbol]
    rcases h : applyUpdEntry pair sd e with es | sd1
    · rfl
    · exact ih sd1

lemma foldDel_map_symbol (pair σ : String) :
    ∀ (l : List BookEntry) (sd : EngineState × DeltaT),
      foldDel pair sd (l.map fun e => { e with symbol := σ }) = foldDel pair sd l := by
  intro l
  induction l with
  | nil => intro sd; rfl
  | cons e rest ih =>
    intro sd
    simp only [List.map_cons, foldDel, applyDelEntry_symbol]
    rcases h : applyDelEntry pair sd e with es | sd1
    · rfl
    · exact ih sd1

lemma dispatch_map_symbol (pair : String) (forced : Bool) (s0 : EngineState)
    (act : String) (data : List BookEntry) (σ : String) (ts : ℚ) :
    dispatch pair forced s0 ⟨act, data.map fun e => { e with symbol := σ }⟩ ts =
      dispatch pair forced s0 ⟨act, data⟩ ts := by
  simp only [dispatch, foldSnap_map_symbol, foldIns_map_symbol, foldUpd_map_symbol,
    foldDel_map_symbol]

/-- Effect of the first snapshot after a reset (gate down, empty per-symbol
book and index present for the symbol): the gate opens, the callback is
forced, and the resulting side-books hold exactly the snapshot entries. -/
lemma snapshot_from_empty {s : EngineState} {e0 : BookEntry}
    {rest : List BookEntry} {pb : PriceMap} {oi : IdMap} (ts : ℚ)
    (hgate : s.snapshot_received e0.symbol = false)
    (hb : s.l2_book e0.symbol = some pb)
    (hpb : ∀ sd q, pb sd q = none)
    (ho : s.order_id e0.symbol = some oi) :
    ∃ s' cb, Bitmex.book s ⟨"partial", e0 :: rest⟩ ts = .ok s' (some cb) ∧
      cb.forced = true ∧
      stGate s' e0.symbol = true ∧
      (∀ sd p v,
        (∀ e1 ∈ e0 :: rest, ∀ e2 ∈ e0 :: rest, sideOf e1.side = sideOf e2.side →
          e1.price = e2.price → e1.size = e2.size) →
        (stBook s' e0.symbol sd p = some v ↔
          ∃ e ∈ e0 :: rest, sideOf e.side = sd ∧ e.price = p ∧ e.size = v)) := by
  have hg' : ¬ (s.snapshot_received e0.symbol = true) := by
    rw [hgate]
    exact Bool.false_ne_true
  have hg2 : (setGate s e0.symbol).l2_book e0.symbol = some pb := hb
  have ho2 : (setGate s e0.symbol).order_id e0.symbol = some oi := ho
  obtain ⟨s1, hfold, hgg, hbb⟩ :
      ∃ s1, foldSnap e0.symbol (setGate s e0.symbol) (e0 :: rest) = .ok s1 ∧
        s1.snapshot_received = (setGate s e0.symbol).snapshot_received ∧
        s1.l2_book e0.symbol = some (bookFold pb (e0 :: rest)) := by
    rw [foldSnap_ok e0.symbol (e0 :: rest) _ pb oi hg2 ho2]
    exact ⟨_, rfl, rfl, by simp⟩
  have hbook : Bitmex.book s ⟨"partial", e0 :: rest⟩ ts =
      .ok s1 (some ⟨bookFold pb (e0 :: rest), e0.symbol, true, emptyDelta, ts, ts⟩) := by
    simp only [Bitmex.book]
    rw [if_neg hg', if_pos (by trivial)]
    simp only [dispatch]
    rw [if_pos (by trivial), hfold]
    simp only [finish, hbb]
  refine ⟨s1, _, hbook, rfl, ?_, ?_⟩
  · show s1.snapshot_received e0.symbol = true
    rw [hgg]
    simp
  · intro sd p v hU
    rw [stBook_of_some hbb]
    exact bookFold_iff pb hpb (e0 :: rest) hU sd p v

/-! Claim theorems. -/

/-- C1: for a symbol whose gate is unset, processing a book message with
action insert, update or delete returns with the engine state (Book,
OrderIndex and GateState included) exactly unchanged and invokes no
callback. -/
theorem book_pre_snapshot_discard (s : EngineState) (act : String)
    (e0 : BookEntry) (rest : List BookEntry) (ts : ℚ)
    (hact : act = "insert" ∨ act = "update" ∨ act = "delete")
    (hgate : s.snapshot_received e0.symbol = false) :
    Bitmex.book s ⟨act, e0 :: rest⟩ ts = .ok s none := by
  have hg' : ¬ (s.snapshot_received e0.symbol = true) := by
    rw [hgate]
    exact Bool.false_ne_true
  have hne : ¬ (act = "partial") := by
    rcases hact with rfl | rfl | rfl <;> decide
  simp only [Bitmex.book]
  rw [if_neg hg', if_neg hne]

theorem book_pre_snapshot_discard_witness :
    ("insert" = "insert" ∨ "insert" = "update" ∨ "insert" = "delete") ∧
    cxReset.snapshot_received cxEntry.symbol = false ∧
    Bitmex.book cxReset ⟨"insert", [cxEntry]⟩ 0 = .ok cxReset none :=
  ⟨Or.inl rfl, rfl,
    book_pre_snapshot_discard cxReset "insert" cxEntry [] 0 (Or.inl rfl) rfl⟩

/-- C10: a book message whose data array is empty raises an IndexError while
reading `msg['data'][0]['symbol']`, before any gating decision, state
mutation or callback: the state carried out is exactly the incoming one and
no callback value exists. -/
theorem book_empty_data_raises (s : EngineState) (m : BookMsg) (ts : ℚ)
    (h : m.data = []) : Bitmex.book s m ts = .err .indexError s := by
  simp only [Bitmex.book, h]

theorem book_empty_data_raises_witness :
    (⟨"insert", ([] : List BookEntry)⟩ : BookMsg).data = [] ∧
    Bitmex.book cxLive ⟨"insert", []⟩ 0 = .err .indexError cxLive :=
  ⟨rfl, book_empty_data_raises cxLive ⟨"insert", []⟩ 0 rfl⟩

/-- C4 counterexample: a post-snapshot update message whose second entry has
an unknown order id raises KeyError, but the first entry has already been
applied: the book level at price 100 was changed from size 5 to size 7
before the raise, so the state is not left unmodified. -/
theorem book_unknown_id_cex :
    stGate cxAfterSnap "XBTUSD" = true ∧
    stIdx cxAfterSnap "XBTUSD" Side.bid 99 = none ∧
    stBook cxAfterSnap "XBTUSD" Side.bid 100 = some 5 ∧
    (Bitmex.book cxAfterSnap cxUpdThenUnknown 1).exn = some .keyError ∧
    stBook (Bitmex.book cxAfterSnap cxUpdThenUnknown 1).state "XBTUSD"
      Side.bid 100 = some 7 := by
  refine ⟨?_, ?_, ?_, ?_, ?_⟩ <;> decide

/-- C4 (amended): a post-snapshot update or delete whose FIRST entry
references an id absent from the symbol's OrderIndex raises KeyError to the
caller with the engine state exactly unchanged and no callback; entries
preceding a later failing entry, however, remain applied (see the
counterexample), so the untouched-state guarantee holds only when the
failing entry is the first. -/
theorem book_unknown_id_first_entry (s : EngineState) (act : String)
    (e0 : BookEntry) (rest : List BookEntry) (ts : ℚ) (oi : IdMap)
    (hact : act = "update" ∨ act = "delete")
    (hgate : s.snapshot_received e0.symbol = true)
    (ho : s.order_id e0.symbol = some oi)
    (hid : oi (sideOf e0.side) e0.id = none) :
    Bitmex.book s ⟨act, e0 :: rest⟩ ts = .err .keyError s := by
  simp only [Bitmex.book]
  rw [if_pos hgate]
  simp only [dispatch]
  rcases hact with rfl | rfl
  · rw [if_neg (by decide), if_neg (by decide), if_pos (by trivial)]
    simp only [foldUpd, applyUpdEntry, ho, hid]
  · rw [if_neg (by decide), if_neg (by decide), if_neg (by decide),
      if_pos (by trivial)]
    simp only [foldDel, applyDelEntry, ho, hid]

theorem book_unknown_id_first_entry_witness :
    ("update" = "update" ∨ "update" = "delete") ∧
    cxLive.snapshot_received cxUnkEntry.symbol = true ∧
    cxLive.order_id cxUnkEntry.symbol = some cxLiveIdx ∧
    cxLiveIdx (sideOf cxUnkEntry.side) cxUnkEntry.id = none ∧
    Bitmex.book cxLive ⟨"update", [cxUnkEntry]⟩ 0 = .err .keyError cxLive :=
  ⟨Or.inl rfl, rfl, rfl, rfl,
    book_unknown_id_first_entry cxLive "update" cxUnkEntry [] 0 cxLiveIdx
      (Or.inl rfl) rfl rfl rfl⟩

/-- C5: a post-snapshot delete of an id that is present in the symbol's
OrderIndex at price p (with a live book level at p) removes the id from the
index, removes the level at p from the book, and the emitted delta on that
side is exactly the one-element list [(p, 0)]. -/
theorem book_delete_removes_level (s : EngineState) (e : BookEntry) (ts : ℚ)
    (oi : IdMap) (pb : PriceMap) (p v : ℚ)
    (hgate : s.snapshot_received e.symbol = true)
    (ho : s.order_id e.symbol = some oi)
    (hid : oi (sideOf e.side) e.id = some p)
    (hb : s.l2_book e.symbol = some pb)
    (hlive : pb (sideOf e.side) p = some v) :
    ∃ s' cb, Bitmex.book s ⟨"delete", [e]⟩ ts = .ok s' (some cb) ∧
      stIdx s' e.symbol (sideOf e.side) e.id = none ∧
      stBook s' e.symbol (sideOf e.side) p = none ∧
      cb.delta (sideOf e.side) = [(p, 0)] ∧
      cb.forced = false := by
  have hApp : applyDelEntry e.symbol (s, emptyDelta) e =
      .ok (setL2 (setOrd s e.symbol (delIdx oi (sideOf e.side) e.id)) e.symbol
            (delBook pb (sideOf e.side) p),
          pushDelta emptyDelta (sideOf e.side) (p, 0)) := by
    simp only [applyDelEntry, ho, hid, setOrd_l2_book, hb, hlive]
  have hb2 : (setL2 (setOrd s e.symbol (delIdx oi (sideOf e.side) e.id)) e.symbol
      (delBook pb (sideOf e.side) p)).l2_book e.symbol =
      some (delBook pb (sideOf e.side) p) := by
    simp
  have hbook : Bitmex.book s ⟨"delete", [e]⟩ ts =
      .ok (setL2 (setOrd s e.symbol (delIdx oi (sideOf e.side) e.id)) e.symbol
            (delBook pb (sideOf e.side) p))
        (some ⟨delBook pb (sideOf e.side) p, e.symbol, false,
          pushDelta emptyDelta (sideOf e.side) (p, 0), ts, ts⟩) := by
    simp only [Bitmex.book]
    rw [if_pos hgate]
    simp only [dispatch]
    rw [if_neg (by decide), if_neg (by decide), if_neg (by decide),
      if_pos (by trivial)]
    simp only [foldDel, hApp]
    simp only [finish, hb2]
  refine ⟨_, _, hbook, ?_, ?_, ?_, rfl⟩
  · rw [stIdx_setL2, stIdx_setOrd, if_pos rfl]
    simp [delIdx]
  · rw [stBook_setL2, if_pos rfl]
    simp [delBook]
  · simp [pushDelta, emptyDelta]

theorem book_delete_removes_level_witness :
    cxLive.snapshot_received cxDelEntry.symbol = true ∧
    cxLive.order_id cxDelEntry.symbol = some cxLiveIdx ∧
    cxLiveIdx (sideOf cxDelEntry.side) cxDelEntry.id = some 100 ∧
    cxLive.l2_book cxDelEntry.symbol = some cxLivePB ∧
    cxLivePB (sideOf cxDelEntry.side) 100 = some 5 ∧
    (∃ s' cb, Bitmex.book cxLive ⟨"delete", [cxDelEntry]⟩ 0 = .ok s' (some cb) ∧
      stIdx s' cxDelEntry.symbol (sideOf cxDelEntry.side) cxDelEntry.id = none ∧
      stBook s' cxDelEntry.symbol (sideOf cxDelEntry.side) 100 = none ∧
      cb.delta (sideOf cxDelEntry.side) = [(100, 0)] ∧
      cb.forced = false) :=
  ⟨rfl, rfl, rfl, rfl, rfl,
    book_delete_removes_level cxLive cxDelEntry 0 cxLiveIdx cxLivePB 100 5
      rfl rfl rfl rfl rfl⟩

/-- C6: a post-snapshot update of an id present in the symbol's OrderIndex
at price p with new size e.size keeps the id mapped to p, sets the book
level at p to e.size, leaves every other price level on both sides, every
other id, the gate, and all other symbols' state unchanged, and emits the
delta [(p, e.size)] on that side (empty on the other side). -/
theorem book_update_changes_size_only (s : EngineState) (e : BookEntry)
    (ts : ℚ) (oi : IdMap) (pb : PriceMap) (p : ℚ)
    (hgate : s.snapshot_received e.symbol = true)
    (ho : s.order_id e.symbol = some oi)
    (hid : oi (sideOf e.side) e.id = some p)
    (hb : s.l2_book e.symbol = some pb) :
    ∃ s' cb, Bitmex.book s ⟨"update", [e]⟩ ts = .ok s' (some cb) ∧
      stIdx s' e.symbol (sideOf e.side) e.id = some p ∧
      stBook s' e.symbol (sideOf e.side) p = some e.size ∧
      (∀ q, q ≠ p → stBook s' e.symbol (sideOf e.side) q =
        stBook s e.symbol (sideOf e.side) q) ∧
      (∀ sd q, sd ≠ sideOf e.side → stBook s' e.symbol sd q =
        stBook s e.symbol sd q) ∧
      (∀ sd i, ¬(sd = sideOf e.side ∧ i = e.id) → stIdx s' e.symbol sd i =
        stIdx s e.symbol sd i) ∧
      FramePair e.symbol s s' ∧
      s'.snapshot_received = s.snapshot_received ∧
      cb.delta (sideOf e.side) = [(p, e.size)] ∧
      (∀ sd, sd ≠ sideOf e.side → cb.delta sd = []) ∧
      cb.forced = false := by
  have hApp : applyUpdEntry e.symbol (s, emptyDelta) e =
      .ok (setOrd (setL2 s e.symbol (setBook pb (sideOf e.side) p e.size))
            e.symbol (setIdx oi (sideOf e.side) e.id p),
          pushDelta emptyDelta (sideOf e.side) (p, e.size)) := by
    simp only [applyUpdEntry, ho, hid, hb, setL2_order_id]
  have hb2 : (setOrd (setL2 s e.symbol (setBook pb (sideOf e.side) p e.size))
      e.symbol (setIdx oi (sideOf e.side) e.id p)).l2_book e.symbol =
      some (setBook pb (sideOf e.side) p e.size) := by
    simp
  have hbook : Bitmex.book s ⟨"update", [e]⟩ ts =
      .ok (setOrd (setL2 s e.symbol (setBook pb (sideOf e.side) p e.size))
            e.symbol (setIdx oi (sideOf e.side) e.id p))
        (some ⟨setBook pb (sideOf e.side) p e.size, e.symbol, false,
          pushDelta emptyDelta (sideOf e.side) (p, e.size), ts, ts⟩) := by
    simp only [Bitmex.book]
    rw [if_pos hgate]
    simp only [dispatch]
    rw [if_neg (by decide), if_neg (by decide), if_pos (by trivial)]
    simp only [foldUpd, hApp]
    simp only [finish, hb2]
  refine ⟨_, _, hbook, ?_, ?_, ?_, ?_, ?_, ?_, rfl, ?_, ?_, rfl⟩
  · rw [stIdx_setOrd, if_pos rfl]
    simp [setIdx]
  · rw [stBook_setOrd, stBook_setL2, if_pos rfl]
    simp [setBook]
  · intro q hq
    rw [stBook_setOrd, stBook_setL2, if_pos rfl, stBook_of_some hb]
    simp only [setBook]
    rw [if_neg]
    rintro ⟨-, h⟩
    exact hq h
  · intro sd q hsd
    rw [stBook_setOrd, stBook_setL2, if_pos rfl, stBook_of_some hb]
    simp only [setBook]
    rw [if_neg]
    rintro ⟨h, -⟩
    exact hsd h
  · intro sd i hc
    rw [stIdx_setOrd, if_pos rfl, stIdx_of_some ho]
    simp only [setIdx]
    rw [if_neg hc]
  · exact framePair_trans (framePair_setL2 _ _ _) (framePair_setOrd _ _ _)
  · simp [pushDelta, emptyDelta]
  · intro sd hsd
    simp [pushDelta, emptyDelta, hsd]

theorem book_update_changes_size_only_witness :
    cxLive.snapshot_received cxUpdEntry.symbol = true ∧
    cxLive.order_id cxUpdEntry.symbol = some cxLiveIdx ∧
    cxLiveIdx (sideOf cxUpdEntry.side) cxUpdEntry.id = some 100 ∧
    cxLive.l2_book cxUpdEntry.symbol = some cxLivePB ∧
    (∃ s' cb, Bitmex.book cxLive ⟨"update", [cxUpdEntry]⟩ 0 = .ok s' (some cb) ∧
      stIdx s' cxUpdEntry.symbol (sideOf cxUpdEntry.side) cxUpdEntry.id = some 100 ∧
      stBook s' cxUpdEntry.symbol (sideOf cxUpdEntry.side) 100 = some cxUpdEntry.size ∧
      (∀ q, q ≠ 100 → stBook s' cxUpdEntry.symbol (sideOf cxUpdEntry.side) q =
        stBook cxLive cxUpdEntry.symbol (sideOf cxUpdEntry.side) q) ∧
      (∀ sd q, sd ≠ sideOf cxUpdEntry.side → stBook s' cxUpdEntry.symbol sd q =
        stBook cxLive cxUpdEntry.symbol sd q) ∧
      (∀ sd i, ¬(sd = sideOf cxUpdEntry.side ∧ i = cxUpdEntry.id) →
        stIdx s' cxUpdEntry.symbol sd i = stIdx cxLive cxUpdEntry.symbol sd i) ∧
      FramePair cxUpdEntry.symbol cxLive s' ∧
      s'.snapshot_received = cxLive.snapshot_received ∧
      cb.delta (sideOf cxUpdEntry.side) = [(100, cxUpdEntry.size)] ∧
      (∀ sd, sd ≠ sideOf cxUpdEntry.side → cb.delta sd = []) ∧
      cb.forced = false) :=
  ⟨rfl, rfl, rfl, rfl,
    book_update_changes_size_only cxLive cxUpdEntry 0 cxLiveIdx cxLivePB 100
      rfl rfl rfl rfl⟩

/-- C2 counterexample: a second snapshot message, arriving while the gate is
already set, is a book message with action snapshot whose processing yields
forced = false (not true) and does not discard the prior state: the level
(100, 5) installed by the first snapshot is still present afterwards even
though the second snapshot does not mention price 100. -/
theorem snapshot_replace_cex :
    stGate cxAfterSnap "XBTUSD" = true ∧
    (Bitmex.book cxAfterSnap cxSnap2 1).cb.map BookUpdate.forced = some false ∧
    stBook (Bitmex.book cxAfterSnap cxSnap2 1).state "XBTUSD" Side.bid 100 =
      some 5 := by
  refine ⟨?_, ?_, ?_⟩ <;> decide

/-- C2 (amended): a snapshot processed while the symbol's gate is unset and
its per-symbol book is empty (the situation after a reset) sets the gate,
delivers a BookUpdate with forced = true, and leaves the symbol's book on
each side holding exactly the snapshot entries' (price, size) pairs
(provided entries sharing a side and price agree on size); a snapshot
arriving with the gate already set is instead applied as a plain overlay
with forced = false. -/
theorem snapshot_replace (s : EngineState) (e0 : BookEntry)
    (rest : List BookEntry) (ts : ℚ) (pb : PriceMap) (oi : IdMap)
    (hgate : s.snapshot_received e0.symbol = false)
    (hb : s.l2_book e0.symbol = some pb)
    (hpb : ∀ sd q, pb sd q = none)
    (ho : s.order_id e0.symbol = some oi) :
    ∃ s' cb, Bitmex.book s ⟨"partial", e0 :: rest⟩ ts = .ok s' (some cb) ∧
      cb.forced = true ∧
      stGate s' e0.symbol = true ∧
      (∀ sd p v,
        (∀ e1 ∈ e0 :: rest, ∀ e2 ∈ e0 :: rest, sideOf e1.side = sideOf e2.side →
          e1.price = e2.price → e1.size = e2.size) →
        (stBook s' e0.symbol sd p = some v ↔
          ∃ e ∈ e0 :: rest, sideOf e.side = sd ∧ e.price = p ∧ e.size = v)) :=
  snapshot_from_empty ts hgate hb hpb ho

theorem snapshot_replace_witness :
    cxReset.snapshot_received cxEntry.symbol = false ∧
    cxReset.l2_book cxEntry.symbol = some emptyPB ∧
    (∀ sd q, emptyPB sd q = none) ∧
    cxReset.order_id cxEntry.symbol = some emptyIM ∧
    (∃ s' cb, Bitmex.book cxReset ⟨"partial", [cxEntry]⟩ 5 = .ok s' (some cb) ∧
      cb.forced = true ∧
      stGate s' cxEntry.symbol = true ∧
      (∀ sd p v,
        (∀ e1 ∈ [cxEntry], ∀ e2 ∈ [cxEntry], sideOf e1.side = sideOf e2.side →
          e1.price = e2.price → e1.size = e2.size) →
        (stBook s' cxEntry.symbol sd p = some v ↔
          ∃ e ∈ [cxEntry], sideOf e.side = sd ∧ e.price = p ∧ e.size = v))) :=
  ⟨rfl, rfl, fun _ _ => rfl, rfl,
    snapshot_replace cxReset cxEntry [] 5 emptyPB emptyIM rfl rfl
      (fun _ _ => rfl) rfl⟩

/-- C8: Bitmex._reset is idempotent — resetting twice in a row produces
exactly the same engine state as resetting once — and a snapshot applied
right after a reset for a configured symbol behaves as the snapshot-replace
property states: gate set true, forced = true, book equal to the snapshot
entries. -/
theorem reset_idempotent_snapshot (pairs : List String) (s : EngineState) :
    Bitmex.reset pairs (Bitmex.reset pairs s) = Bitmex.reset pairs s ∧
    (∀ (e0 : BookEntry) (rest : List BookEntry) (ts : ℚ),
      e0.symbol ∈ pairs →
      ∃ s' cb, Bitmex.book (Bitmex.reset pairs s) ⟨"partial", e0 :: rest⟩ ts =
          .ok s' (some cb) ∧
        cb.forced = true ∧
        stGate s' e0.symbol = true ∧
        (∀ sd p v,
          (∀ e1 ∈ e0 :: rest, ∀ e2 ∈ e0 :: rest,
            sideOf e1.side = sideOf e2.side → e1.price = e2.price →
            e1.size = e2.size) →
          (stBook s' e0.symbol sd p = some v ↔
            ∃ e ∈ e0 :: rest, sideOf e.side = sd ∧ e.price = p ∧
              e.size = v))) := by
  constructor
  · refine EngineState.ext rfl ?_ rfl
    funext q
    by_cases h : q ∈ pairs <;> simp [Bitmex.reset, h]
  · intro e0 rest ts hmem
    have hb' : (Bitmex.reset pairs s).l2_book e0.symbol = some emptyPB := by
      simp [Bitmex.reset, hmem]
    have ho' : (Bitmex.reset pairs s).order_id e0.symbol = some emptyIM := by
      simp [Bitmex.reset, hmem]
    exact snapshot_from_empty ts rfl hb' (fun _ _ => rfl) ho'

theorem reset_idempotent_snapshot_witness :
    cxEntry.symbol ∈ ["XBTUSD"] ∧
    (Bitmex.reset ["XBTUSD"] (Bitmex.reset ["XBTUSD"] emptyState) =
      Bitmex.reset ["XBTUSD"] emptyState) ∧
    (∃ s' cb, Bitmex.book (Bitmex.reset ["XBTUSD"] emptyState)
        ⟨"partial", [cxEntry]⟩ 3 = .ok s' (some cb) ∧
      cb.forced = true ∧
      stGate s' cxEntry.symbol = true ∧
      (∀ sd p v,
        (∀ e1 ∈ [cxEntry], ∀ e2 ∈ [cxEntry], sideOf e1.side = sideOf e2.side →
          e1.price = e2.price → e1.size = e2.size) →
        (stBook s' cxEntry.symbol sd p = some v ↔
          ∃ e ∈ [cxEntry], sideOf e.side = sd ∧ e.price = p ∧ e.size = v))) :=
  ⟨by decide,
    (reset_idempotent_snapshot ["XBTUSD"] emptyState).1,
    (reset_idempotent_snapshot ["XBTUSD"] emptyState).2 cxEntry [] 3 (by decide)⟩

/-- C9: the book handler reads the symbol only from the first entry of the
data array: rewriting every entry's symbol field to the first entry's symbol
leaves the result (state, callback, exception) identical, and the per-symbol
state of every symbol other than the first entry's is unchanged — so a
message whose entries name different symbols applies all entries to the
first entry's symbol's book. -/
theorem book_symbol_from_first_entry (s : EngineState) (m : BookMsg)
    (e0 : BookEntry) (rest : List BookEntry) (ts : ℚ)
    (hdata : m.data = e0 :: rest) :
    Bitmex.book s m ts = Bitmex.book s (overwriteSyms m e0.symbol) ts ∧
    FramePair e0.symbol s (Bitmex.book s m ts).state := by
  refine ⟨?_, frame_book s m ts e0 rest hdata⟩
  rcases m with ⟨act, data⟩
  simp only [BookMsg.mk.injEq] at hdata
  rcases hdata with rfl
  simp only [overwriteSyms, Bitmex.book, List.map_cons]
  by_cases hg : s.snapshot_received e0.symbol
  · rw [if_pos hg, if_pos hg]
    rw [show (⟨act, ({ e0 with symbol := e0.symbol } : BookEntry) ::
      (rest.map fun e => { e with symbol := e0.symbol })⟩ : BookMsg) =
      ⟨act, (e0 :: rest).map fun e => { e with symbol := e0.symbol }⟩ from rfl]
    rw [dispatch_map_symbol]
  · rw [if_neg hg, if_neg hg]
    by_cases ha : act = "partial"
    · rw [if_pos ha, if_pos ha]
      rw [show (⟨act, ({ e0 with symbol := e0.symbol } : BookEntry) ::
        (rest.map fun e => { e with symbol := e0.symbol })⟩ : BookMsg) =
        ⟨act, (e0 :: rest).map fun e => { e with symbol := e0.symbol }⟩ from rfl]
      rw [dispatch_map_symbol]
    · rw [if_neg ha, if_neg ha]

theorem book_symbol_from_first_entry_witness :
    cxMixedSyms.data = (⟨"XBTUSD", "Buy", 98, 1, 7⟩ : BookEntry) ::
      [⟨"ETHUSD", "Sell", 200, 2, 8⟩] ∧
    (Bitmex.book cxLive cxMixedSyms 0 =
      Bitmex.book cxLive (overwriteSyms cxMixedSyms "XBTUSD") 0 ∧
    FramePair "XBTUSD" cxLive (Bitmex.book cxLive cxMixedSyms 0).state) :=
  ⟨rfl, book_symbol_from_first_entry cxLive cxMixedSyms
    ⟨"XBTUSD", "Buy", 98, 1, 7⟩ [⟨"ETHUSD", "Sell", 200, 2, 8⟩] 0 rfl⟩

/-- C3 counterexample: from a reset, the successfully processed trace
snapshot [(bid, 100, 5, id 1)]; insert [(bid, 100, 6, id 2)]; delete [id 1]
raises nothing, yet leaves id 2 in OrderIndex mapped to price 100 while the
book has no level at 100 any more — the claimed invariant fails because two
live ids shared a price and the delete removed the level both point at. -/
theorem orderIndex_consistency_cex :
    (runMsgs cxReset cxC3Msgs).isSome = true ∧
    stIdx cxC3End "XBTUSD" Side.bid 2 = some 100 ∧
    stBook cxC3End "XBTUSD" Side.bid 100 = none := by
  refine ⟨?_, ?_, ?_⟩ <;> decide

/-- C3 (amended): after any sequence of successfully processed book messages
starting from a reset, if at every intermediate state no two distinct live
order ids of one symbol and side map to the same price, then every id
present in OrderIndex maps to a price with a live entry in the book. -/
theorem orderIndex_consistency (pairs : List String) (s : EngineState)
    (msgs : List (BookMsg × ℚ)) (sEnd : EngineState)
    (hrun : runMsgs (Bitmex.reset pairs s) msgs = some sEnd)
    (hinj : ∀ pre t, pre <+: msgs →
      runMsgs (Bitmex.reset pairs s) pre = some t → InjIdx t) :
    Indexed sEnd :=
  runMsgs_indexed msgs (Bitmex.reset pairs s) sEnd (indexed_reset pairs s)
    hinj hrun

theorem orderIndex_consistency_witness :
    runMsgs cxReset [(⟨"insert", [cxEntry]⟩, 0)] = some cxReset ∧
    (∀ pre t, pre <+: [((⟨"insert", [cxEntry]⟩ : BookMsg), (0 : ℚ))] →
      runMsgs cxReset pre = some t → InjIdx t) ∧
    Indexed cxReset := by
  have h1 : runMsgs cxReset [(⟨"insert", [cxEntry]⟩, 0)] = some cxReset := rfl
  have h2 : ∀ pre t, pre <+: [((⟨"insert", [cxEntry]⟩ : BookMsg), (0 : ℚ))] →
      runMsgs cxReset pre = some t → InjIdx t := by
    intro pre t hpre hrun'
    rcases pre with _ | ⟨a, pre'⟩
    · simp only [runMsgs, Option.some.injEq] at hrun'
      exact hrun' ▸ injIdx_reset ["XBTUSD"] emptyState
    · obtain ⟨tl, htl⟩ := hpre
      rw [List.cons_append] at htl
      injection htl with h3 h4
      obtain ⟨h5, -⟩ := List.append_eq_nil.mp h4
      subst h3
      subst h5
      rw [h1] at hrun'
      injection hrun' with h6
      exact h6 ▸ injIdx_reset ["XBTUSD"] emptyState
  exact ⟨h1, h2, orderIndex_consistency ["XBTUSD"] emptyState
    [(⟨"insert", [cxEntry]⟩, 0)] cxReset h1 h2⟩

/-- C7 counterexample: the BookUpdate delivered by the book handler carries
the local receipt timestamp in BOTH its timestamp fields — at receipt time 5
both fields are 5, and at receipt time 7 the event timestamp follows to 7,
although the two book messages are identical and carry no venue time at all.
The event timestamp of a BookUpdate is therefore a copy of the local receipt
time, contradicting the claim that the two fields have distinct sources. -/
theorem event_timestamp_sources_cex :
    (Bitmex.book cxReset cxSnap 5).cb.map BookUpdate.timestamp = some 5 ∧
    (Bitmex.book cxReset cxSnap 5).cb.map BookUpdate.receipt_timestamp =
      some 5 ∧
    (Bitmex.book cxReset cxSnap 7).cb.map BookUpdate.timestamp = some 7 := by
  refine ⟨?_, ?_, ?_⟩ <;> decide

/-- C7 (amended): trade events carry an event timestamp computed by the
timestamp normalizer from the venue-reported per-entry timestamp string,
together with the local receipt timestamp; BookUpdate events instead carry
the local receipt timestamp in both their timestamp and receipt_timestamp
fields (bitmex.py line 151 passes `timestamp, timestamp`). -/
theorem event_timestamp_sources :
    (∀ (tsNorm : String → ℚ) (data : List TradeEntry) (ts : ℚ) (cb : TradeCB),
      cb ∈ Bitmex.trade tsNorm data ts →
      (∃ d ∈ data, cb.timestamp = tsNorm d.timestamp ∧ cb.pair = d.symbol) ∧
      cb.receipt_timestamp = ts) ∧
    (∀ (s : EngineState) (m : BookMsg) (ts : ℚ) (cb : BookUpdate),
      (Bitmex.book s m ts).cb = some cb →
      cb.timestamp = ts ∧ cb.receipt_timestamp = ts) := by
  constructor
  · intro tsNorm data ts cb hmem
    simp only [Bitmex.trade, List.mem_map] at hmem
    obtain ⟨d, hd, hcb⟩ := hmem
    refine ⟨⟨d, hd, ?_, ?_⟩, ?_⟩ <;> rw [← hcb]
  · intro s m ts cb h
    rcases hr : Bitmex.book s m ts with ⟨s1, cb1⟩ | ⟨e, se⟩ <;> rw [hr] at h
    · simp only [ProcResult.cb] at h
      exact cb_timestamps_book (show Bitmex.book s m ts = .ok s1 (some cb)
        by rw [hr, h])
    · simp only [ProcResult.cb] at h
      exact Option.noConfusion h

theorem event_timestamp_sources_witness :
    (cxTradeCB ∈ Bitmex.trade cxTsNorm [cxTradeEntry] 5 ∧
      ((∃ d ∈ [cxTradeEntry], cxTradeCB.timestamp = cxTsNorm d.timestamp ∧
        cxTradeCB.pair = d.symbol) ∧ cxTradeCB.receipt_timestamp = 5)) ∧
    ((Bitmex.book cxReset cxSnap 5).cb = some cxSnapCB ∧
      (cxSnapCB.timestamp = 5 ∧ cxSnapCB.receipt_timestamp = 5)) :=
  ⟨⟨by decide, event_timestamp_sources.1 cxTsNorm [cxTradeEntry] 5 cxTradeCB
      (by decide)⟩,
   ⟨rfl, event_timestamp_sources.2 cxReset cxSnap 5 cxSnapCB rfl⟩⟩

end Cryptofeed
